import Mathlib

set_option autoImplicit false

/-!
Shallow embedding of `brian2tools/baseexport/collector.py` (the extraction
layer of the brian2tools base exporter) and proofs about its collectors.

Modelling conventions:
* Python dictionaries are association lists (`PyDict V`, a `List (String × V)`)
  that preserve insertion order; `alistInsert` is `d[k] = v` (overwrite in
  place when the key exists, append otherwise) and `alistUpdate` is
  `d.update(other)`.
* Python sets of identifier names are `Finset String`.
* Scalar payloads whose internals no collector inspects (clock steps,
  refractory durations, units, storage types) are plain `Int` / `String`.
* External collaborators are parameters: `get_identifiers` (from
  `brian2.utils.stringtools`) is a function argument `gi`, the pruner
  `_prune_identifiers` (from `.helper`) is a function argument `prune`, and
  the brian2 method `Group.resolve_all` is a function field of the group.
* A call that raises in Python (`NameError` on the leaked loop variable in
  `collect_Events`, `KeyError` on a missing dictionary key) is modelled by
  `Option`, with `none` for the raising run.
-/

/-- Opaque stand-in for a brian2 Quantity (a clock step, duration...). -/
abbrev Quantity := Int

/-- Run-time namespace dictionary passed alongside each group; collectors
only forward it to the group's resolution method, never inspect it. -/
abbrev RunNamespace := List (String × Int)

/-- Association list with string keys: the model of a Python dict,
keeping insertion order. -/
abbrev PyDict (V : Type) := List (String × V)

/-- Keys of a dict, in order. -/
def alistKeys {V : Type} (d : PyDict V) : List String :=
  d.map Prod.fst

/-- Lookup `d[k]`: first binding wins, `none` models `KeyError`. -/
def alistLookup {V : Type} : PyDict V → String → Option V
  | [], _ => none
  | (k, v) :: rest, key => if k = key then some v else alistLookup rest key

/-- Assignment `d[k] = v`: overwrite in place when the key is present,
append at the end otherwise. -/
def alistInsert {V : Type} (d : PyDict V) (key : String) (v : V) : PyDict V :=
  if key ∈ alistKeys d then
    d.map (fun p => if p.1 = key then (key, v) else p)
  else
    d ++ [(key, v)]

/-- Python `d.update(other)`: assign every binding of `other` into `d`,
in order. -/
def alistUpdate {V : Type} (d other : PyDict V) : PyDict V :=
  other.foldl (fun acc p => alistInsert acc p.1 p.2) d

/-- A dict has distinct keys (true of every Python dict). -/
def alistNodupKeys {V : Type} (d : PyDict V) : Prop :=
  (alistKeys d).Nodup

/-! ### Equations (`collect_Equations`, collector.py lines 93-125) -/

/-- Kind of a brian2 equation: the constants `DIFFERENTIAL_EQUATION`,
`SUBEXPRESSION` and `PARAMETER` of `brian2.equations.equations`. -/
inductive EqType where
  | differentialEquation
  | subexpression
  | parameter
  deriving DecidableEq, Repr

/-- One named equation of a brian2 `Equations` object, as the collector
reads it: unit, kind, storage type, expression code (absent on parameter
entries in brian2), declarative flags. -/
structure SingleEquation where
  unit : String
  type : EqType
  var_type : String
  expr : Option String
  flags : List String
  deriving DecidableEq, Repr

/-- A brian2 `Equations` object: named equations plus the derived set of
free identifiers appearing in them (`Equations.identifiers`, computed by
brian2 itself, hence a plain field here). -/
structure EquationSet where
  eqs : PyDict SingleEquation
  identifiers : Finset String
  deriving DecidableEq

/-- Name sets exposed by brian2 `Equations`: differential-equation names. -/
def EquationSet.diff_eq_names (E : EquationSet) : Finset String :=
  ((E.eqs.filter (fun p => p.2.type = EqType.differentialEquation)).map
    Prod.fst).toFinset

/-- Subexpression names of an equation set. -/
def EquationSet.subexpr_names (E : EquationSet) : Finset String :=
  ((E.eqs.filter (fun p => p.2.type = EqType.subexpression)).map
    Prod.fst).toFinset

/-- Parameter names of an equation set. -/
def EquationSet.parameter_names (E : EquationSet) : Finset String :=
  ((E.eqs.filter (fun p => p.2.type = EqType.parameter)).map
    Prod.fst).toFinset

/-- Per-name record produced by `collect_Equations`: `expr` and `flags` are
optional keys of the Python sub-dict, so `Option` fields here. -/
structure EqEntry where
  unit : String
  type : EqType
  var_type : String
  expr : Option String
  flags : Option (List String)
  deriving DecidableEq, Repr

/-- Body of the `collect_Equations` loop for one equation (collector.py
lines 115-123): always unit/type/var_type, expression code unless the kind
is parameter, flags only when the flag list is truthy (non-empty). -/
def mkEqEntry (eq : SingleEquation) : EqEntry :=
  { unit := eq.unit
    type := eq.type
    var_type := eq.var_type
    expr := if eq.type ≠ EqType.parameter then eq.expr else none
    flags := if eq.flags ≠ [] then some eq.flags else none }

/-- `collect_Equations` (collector.py lines 93-125). The source iterates
over the set union `diff_eq_names | subexpr_names | parameter_names` (no
specified order) and indexes `equations[name]`; as the three kinds exhaust
`EqType`, that union is exactly the key set of the equation dict, so the
model iterates the underlying bindings. -/
def collect_Equations (equations : EquationSet) : PyDict EqEntry :=
  equations.eqs.foldl (fun d p => alistInsert d p.1 (mkEqEntry p.2)) []

/-! ### Events (`collect_Events`, collector.py lines 128-174) -/

/-- Scheduling data the collector reads off a brian2 `CodeRunner`
(thresholder or resetter): schedule slot, priority order, clock step. -/
structure Sched where
  whenSlot : String
  order : Int
  dt : Quantity
  deriving DecidableEq, Repr

/-- Threshold / reset sub-record of one event: code plus scheduling. -/
structure CodeSched where
  code : String
  whenSlot : String
  order : Int
  dt : Quantity
  deriving DecidableEq, Repr

/-- Per-event sub-dict of the event dict: mandatory threshold sub-record,
optional reset sub-record, optional refractory value. -/
structure EventEntry where
  threshold : CodeSched
  reset : Option CodeSched
  refractory : Option Quantity
  deriving DecidableEq, Repr

/-- The model of `get_identifiers` from `brian2.utils.stringtools`: an
external brian2 utility extracting the free names of a code string, kept
abstract as a function argument. -/
abbrev GetIdents := String → Finset String

/-- Exact runtime class of an auxiliary object contained in a group, the
discriminator behind `type(obj) == CodeRunner` and
`isinstance(obj, StateUpdater)` / `isinstance(obj, SummedVariableUpdater)`
in the source. -/
inductive ObjKind where
  | codeRunner
  | stateUpdater
  | thresholderObj
  | resetterObj
  | summedVariableUpdater
  | other
  deriving DecidableEq, Repr

/-- An auxiliary contained object with the attributes the collectors read. -/
structure ContainedObj where
  kind : ObjKind
  name : String
  abstract_code : String
  dt : Quantity
  whenSlot : String
  order : Int
  targetName : String
  deriving DecidableEq, Repr

/-- A brian2 `NeuronGroup` as read by the collector: name, size, the
user-chosen integration method (`method_choice` is a string or not a
string, modelled `Option`), user equations, the event dicts (`events` maps
event name to threshold condition code, `event_codes` to reset code,
`thresholder` / `resetter` to the scheduling `CodeRunner` data),
`_refractory` (`none` models the default `False`), the namespace-resolution
method composed to the name set it yields, and the contained objects. -/
structure NeuronGroup where
  name : String
  num : Nat
  method_choice : Option String
  user_equations : EquationSet
  events : PyDict String
  thresholder : PyDict Sched
  event_codes : PyDict String
  resetter : PyDict Sched
  refractory : Option Quantity
  resolveAll : Finset String → RunNamespace → Finset String
  contained_objects : List ContainedObj

/-- One step of the `for event in group.thresholder` loop (collector.py
lines 151-168). The source iterates the keys of `group.thresholder` and
re-indexes `group.thresholder[event]` for the scheduling data; the model
iterates the bindings, which agrees on any dict. A missing key of
`group.events` or `group.resetter` raises `KeyError`, hence `none`. -/
def collectEventsLoop (gi : GetIdents) (g : NeuronGroup) :
    List (String × Sched) → PyDict EventEntry → Finset String →
    Option (PyDict EventEntry × Finset String)
  | [], d, ids => some (d, ids)
  | (ev, sch) :: rest, d, ids =>
    match alistLookup g.events ev with
    | none => none
    | some tcode =>
      let entry0 : EventEntry :=
        { threshold :=
            { code := tcode
              whenSlot := sch.whenSlot
              order := sch.order
              dt := sch.dt }
          reset := none
          refractory := none }
      let ids1 := ids ∪ gi tcode
      match alistLookup g.event_codes ev with
      | some rcode =>
        match alistLookup g.resetter ev with
        | none => none
        | some rsch =>
          let entry1 :=
            { entry0 with
                reset := some
                  { code := rcode
                    whenSlot := rsch.whenSlot
                    order := rsch.order
                    dt := rsch.dt } }
          collectEventsLoop gi g rest (alistInsert d ev entry1)
            (ids1 ∪ gi rcode)
      | none =>
        collectEventsLoop gi g rest (alistInsert d ev entry0) ids1

/-- After the loop, `event_subdict['refractory'] = group._refractory`
writes through the alias `event_subdict`, which is the sub-dict the dict
binds at the last-iterated event name. -/
def setRefractory (d : PyDict EventEntry) (ev : String) (r : Option Quantity) :
    PyDict EventEntry :=
  d.map (fun p => if p.1 = ev then (p.1, { p.2 with refractory := r }) else p)

/-- `collect_Events` (collector.py lines 128-174). The refractory check at
line 171 runs after the loop on the leaked loop variable `event`: with an
empty thresholder that read raises `NameError` (`none` here); otherwise
`event` is the last-iterated event name. -/
def collect_Events (gi : GetIdents) (g : NeuronGroup) :
    Option (PyDict EventEntry × Finset String) :=
  match collectEventsLoop gi g g.thresholder [] ∅ with
  | none => none
  | some (d, ids) =>
    match (alistKeys g.thresholder).getLast? with
    | none => none
    | some ev =>
      if ev = "spike" ∧ g.refractory.isSome = true then
        some (setRefractory d ev g.refractory, ids)
      else
        some (d, ids)

/-! ### Equation-driven population (`collect_NeuronGroup`, lines 15-90) -/

/-- Lines 56-59 of the source: the event part of the neuron record. When
`group.events` is truthy (non-empty dict), `collect_Events` runs and its
identifier set is folded in; otherwise no events key and no identifiers. -/
def neuronEventsPart (gi : GetIdents) (g : NeuronGroup) :
    Option (Option (PyDict EventEntry) × Finset String) :=
  if g.events ≠ [] then
    match collect_Events gi g with
    | none => none
    | some (d, ids) => some (some d, ids)
  else
    some (none, ∅)

/-- One `run_regularly` list item (source lines 76-82). -/
structure RunRegItem where
  name : String
  code : String
  dt : Quantity
  whenSlot : String
  order : Int
  deriving DecidableEq, Repr

/-- Builds a `run_regularly` item from a contained object. -/
def mkRunRegItem (obj : ContainedObj) : RunRegItem :=
  { name := obj.name
    code := obj.abstract_code
    dt := obj.dt
    whenSlot := obj.whenSlot
    order := obj.order }

/-- The contained-objects loop of `collect_NeuronGroup` (lines 70-86): one
pass; an object of exact class `CodeRunner` appends a `run_regularly` item
(creating the key on first use, so `none` means the key is absent); an
instance of `StateUpdater` overwrites the group-level slot and order. -/
def neuronContainedScan (objs : List ContainedObj) :
    Option (List RunRegItem) × Option (String × Int) :=
  objs.foldl
    (fun acc obj =>
      let rr :=
        if obj.kind = ObjKind.codeRunner then
          some ((acc.1.getD []) ++ [mkRunRegItem obj])
        else acc.1
      let wo :=
        if obj.kind = ObjKind.stateUpdater then
          some (obj.whenSlot, obj.order)
        else acc.2
      (rr, wo))
    (none, none)

/-- The neuron record: each optional Python key is an `Option` field. -/
structure NeuronDict where
  name : String
  num : Nat
  user_method : Option String
  equations : PyDict EqEntry
  events : Option (PyDict EventEntry)
  identifiers : Option (Finset String)
  run_regularly : Option (List RunRegItem)
  whenSlot : Option String
  order : Option Int
  deriving DecidableEq

/-- `collect_NeuronGroup` (collector.py lines 15-90). `gi` models
`get_identifiers`, `prune` models `_prune_identifiers` from `.helper`;
the `identifiers` key is set only when the pruned dict is truthy. -/
def collect_NeuronGroup (gi : GetIdents)
    (prune : Finset String → Finset String)
    (group : NeuronGroup) (run_namespace : RunNamespace) :
    Option NeuronDict :=
  match neuronEventsPart gi group with
  | none => none
  | some (evd, evIds) =>
    let ids0 : Finset String := ∅ ∪ group.user_equations.identifiers
    let ids := ids0 ∪ evIds
    let resolved := group.resolveAll ids run_namespace
    let pruned := prune resolved
    let scan := neuronContainedScan group.contained_objects
    some
      { name := group.name
        num := group.num
        user_method := group.method_choice
        equations := collect_Equations group.user_equations
        events := evd
        identifiers := if pruned ≠ ∅ then some pruned else none
        run_regularly := scan.1
        whenSlot := scan.2.map Prod.fst
        order := scan.2.map Prod.snd }

/-! ### Spike generator (`collect_SpikeGenerator`, lines 177-229) -/

/-- The `run_regularly`-only contained-objects loop shared by the spike
generator and Poisson collectors (source lines 217-227 and 275-285). -/
def runRegularlyScan (objs : List ContainedObj) : Option (List RunRegItem) :=
  objs.foldl
    (fun acc obj =>
      if obj.kind = ObjKind.codeRunner then
        some ((acc.getD []) ++ [mkRunRegItem obj])
      else acc)
    none

/-- A brian2 `SpikeGeneratorGroup` as read by the collector. -/
structure SpikeGeneratorGroup where
  name : String
  num : Nat
  neuron_index : List Nat
  spike_time : List Quantity
  period : Quantity
  contained_objects : List ContainedObj
  deriving DecidableEq, Repr

/-- The spike-generator record. -/
structure SpikeGenDict where
  name : String
  num : Nat
  indices : List Nat
  times : List Quantity
  period : Quantity
  run_regularly : Option (List RunRegItem)
  deriving DecidableEq, Repr

/-- `collect_SpikeGenerator` (collector.py lines 177-229). -/
def collect_SpikeGenerator (spike_gen : SpikeGeneratorGroup) : SpikeGenDict :=
  { name := spike_gen.name
    num := spike_gen.num
    indices := spike_gen.neuron_index
    times := spike_gen.spike_time
    period := spike_gen.period
    run_regularly := runRegularlyScan spike_gen.contained_objects }

/-! ### Poisson population (`collect_PoissonGroup`, lines 232-287) -/

/-- The `_rates` attribute: a quantity/array or a code string
(`type(rates) == str` drives the identifier extraction). -/
inductive RateSpec where
  | quantity (q : Quantity)
  | code (s : String)
  deriving DecidableEq, Repr

/-- A brian2 `PoissonGroup` as read by the collector. -/
structure PoissonGroup where
  name : String
  num : Nat
  rates : RateSpec
  resolveAll : Finset String → RunNamespace → Finset String
  contained_objects : List ContainedObj

/-- The Poisson record. -/
structure PoissonDict where
  name : String
  num : Nat
  rates : RateSpec
  identifiers : Option (Finset String)
  run_regularly : Option (List RunRegItem)
  deriving DecidableEq

/-- Identifier extraction on the rate specification (source lines 262-263):
only a string rate contributes free names. -/
def poissonRateIdents (gi : GetIdents) (p : PoissonGroup) : Finset String :=
  match p.rates with
  | RateSpec.code s => ∅ ∪ gi s
  | RateSpec.quantity _ => ∅

/-- `collect_PoissonGroup` (collector.py lines 232-287). -/
def collect_PoissonGroup (gi : GetIdents)
    (prune : Finset String → Finset String)
    (poisson_grp : PoissonGroup) (run_namespace : RunNamespace) :
    PoissonDict :=
  let resolved := poisson_grp.resolveAll (poissonRateIdents gi poisson_grp)
    run_namespace
  let pruned := prune resolved
  { name := poisson_grp.name
    num := poisson_grp.num
    rates := poisson_grp.rates
    identifiers := if pruned ≠ ∅ then some pruned else none
    run_regularly := runRegularlyScan poisson_grp.contained_objects }

/-! ### Monitors (`collect_StateMonitor` ... lines 290-432) -/

/-- Recording selector of a monitor: `True` for all indices, or an
explicit index list, as stored on the monitor object. -/
inductive RecordSel where
  | all
  | indices (l : List Nat)
  deriving DecidableEq, Repr

/-- A brian2 `StateMonitor` as read by the collector. -/
structure StateMonitor where
  name : String
  sourceName : String
  record_variables : List String
  record_all : Bool
  record : List Nat
  n_indices : Nat
  dt : Quantity
  whenSlot : String
  order : Int
  deriving DecidableEq, Repr

/-- The state-monitor record. -/
structure StateMonDict where
  name : String
  source : String
  vars : List String
  record : RecordSel
  n_indices : Nat
  dt : Quantity
  whenSlot : String
  order : Int
  deriving DecidableEq, Repr

/-- `collect_StateMonitor` (collector.py lines 290-335): `record` is the
boolean `True` when all indices are recorded, the index list otherwise. -/
def collect_StateMonitor (state_mon : StateMonitor) : StateMonDict :=
  { name := state_mon.name
    source := state_mon.sourceName
    vars := state_mon.record_variables
    record := if state_mon.record_all then RecordSel.all
              else RecordSel.indices state_mon.record
    n_indices := state_mon.n_indices
    dt := state_mon.dt
    whenSlot := state_mon.whenSlot
    order := state_mon.order }

/-- A brian2 `EventMonitor` (a `SpikeMonitor` is one with event "spike")
as read by the collector. -/
structure EventMonitor where
  name : String
  event : String
  sourceName : String
  record_variables : List String
  record : RecordSel
  dt : Quantity
  whenSlot : String
  order : Int
  deriving DecidableEq, Repr

/-- The event-monitor record. -/
structure EventMonDict where
  name : String
  event : String
  source : String
  vars : List String
  record : RecordSel
  dt : Quantity
  whenSlot : String
  order : Int
  deriving DecidableEq, Repr

/-- `collect_EventMonitor` (collector.py lines 358-398). -/
def collect_EventMonitor (event_mon : EventMonitor) : EventMonDict :=
  { name := event_mon.name
    event := event_mon.event
    source := event_mon.sourceName
    vars := event_mon.record_variables
    record := event_mon.record
    dt := event_mon.dt
    whenSlot := event_mon.whenSlot
    order := event_mon.order }

/-- `collect_SpikeMonitor` (collector.py lines 338-355): passes the
monitor to `collect_EventMonitor` and returns the result. -/
def collect_SpikeMonitor (spike_mon : EventMonitor) : EventMonDict :=
  collect_EventMonitor spike_mon

/-- A brian2 `PopulationRateMonitor` as read by the collector. -/
structure PopulationRateMonitor where
  name : String
  sourceName : String
  dt : Quantity
  whenSlot : String
  order : Int
  deriving DecidableEq, Repr

/-- The population-rate-monitor record. -/
structure PopRateMonDict where
  name : String
  source : String
  dt : Quantity
  whenSlot : String
  order : Int
  deriving DecidableEq, Repr

/-- `collect_PopulationRateMonitor` (collector.py lines 401-432). -/
def collect_PopulationRateMonitor (poprate_mon : PopulationRateMonitor) :
    PopRateMonDict :=
  { name := poprate_mon.name
    source := poprate_mon.sourceName
    dt := poprate_mon.dt
    whenSlot := poprate_mon.whenSlot
    order := poprate_mon.order }

/-! ### Synapses (`collect_Synapses`, lines 435-482) -/

/-- A brian2 `Synapses` object as read by the collector: `event_driven` is
`None` (`none`) when no equation carries the event-driven flag. -/
structure Synapses where
  name : String
  sourceName : String
  targetName : String
  equations : EquationSet
  event_driven : Option EquationSet

  contained_objects : List ContainedObj

/-- One summed-variables list item (source lines 472-475). -/
structure SummedVarEntry where
  code : String
  target : String
  name : String
  dt : Quantity
  whenSlot : String
  order : Int
  deriving DecidableEq, Repr

/-- The synapse record. -/
structure SynapseDict where
  name : String
  source : String
  target : String
  equations : PyDict EqEntry
  summed_variables : Option (List SummedVarEntry)
  deriving DecidableEq

/-- `collect_Synapses` (collector.py lines 435-482): the static equation
dict is built first and then `dict.update`d with the event-driven one when
`synapses.event_driven` is truthy; the summed-variables loop keeps exactly
the `SummedVariableUpdater` instances, and the key is set only when the
collected list is non-empty. -/
def collect_Synapses (synapses : Synapses) : SynapseDict :=
  let eqd0 := collect_Equations synapses.equations
  let eqd :=
    match synapses.event_driven with
    | some ed => alistUpdate eqd0 (collect_Equations ed)
    | none => eqd0
  let summed :=
    (synapses.contained_objects.filter
      (fun o => o.kind = ObjKind.summedVariableUpdater)).map
      (fun o =>
        { code := o.abstract_code
          target := o.targetName
          name := o.name
          dt := o.dt
          whenSlot := o.whenSlot
          order := o.order : SummedVarEntry })
  { name := synapses.name
    source := synapses.sourceName
    target := synapses.targetName
    equations := eqd
    summed_variables := if summed ≠ [] then some summed else none }

/-! ### Concrete instances used to evaluate the collectors -/

/-- Identifier extractor returning no names (enough for code strings whose
free names play no role in the fact being checked). -/
def giEmpty : GetIdents := fun _ => ∅

/-- Identity pruner: keeps every resolved identifier. -/
def pruneId : Finset String → Finset String := fun s => s

/-- Pruner removing everything (models a run where all resolved names are
library-internal noise). -/
def pruneEmpty : Finset String → Finset String := fun _ => ∅

/-- Empty run-time namespace. -/
def nsEmpty : RunNamespace := []

/-- Scheduling data shared by the concrete thresholder entries. -/
def exSched : Sched := { whenSlot := "thresholds", order := 0, dt := 1 }

/-- Group defining "spike" first and a custom event second, with a
refractory specification of 2 time units. -/
def c1Group : NeuronGroup :=
  { name := "neurongroup"
    num := 1
    method_choice := some "euler"
    user_equations := { eqs := [], identifiers := ∅ }
    events := [("spike", "v > 1"), ("custom", "v > 2")]
    thresholder := [("spike", exSched), ("custom", exSched)]
    event_codes := []
    resetter := []
    refractory := some 2
    resolveAll := fun s _ => s
    contained_objects := [] }

/-- Group defining only the "spike" event with a refractory of 2 units
(the shape of Scenario B of the specification). -/
def c2Group : NeuronGroup :=
  { name := "neurongroup_b"
    num := 1
    method_choice := none
    user_equations := { eqs := [], identifiers := ∅ }
    events := [("spike", "v > 1")]
    thresholder := [("spike", exSched)]
    event_codes := []
    resetter := []
    refractory := some 2
    resolveAll := fun s _ => s
    contained_objects := [] }

/-- Event dict the collector produces for `c2Group`. -/
def c2Dict : PyDict EventEntry :=
  [("spike",
    { threshold :=
        { code := "v > 1", whenSlot := "thresholds", order := 0, dt := 1 }
      reset := none
      refractory := some 2 })]

/-- Same shape as `c2Group`, kept separate for the precondition claim. -/
def c10Group : NeuronGroup :=
  { name := "neurongroup_c"
    num := 1
    method_choice := none
    user_equations := { eqs := [], identifiers := ∅ }
    events := [("spike", "v > 1")]
    thresholder := [("spike", exSched)]
    event_codes := []
    resetter := []
    refractory := none
    resolveAll := fun s _ => s
    contained_objects := [] }

/-- Equation set with one differential equation and one parameter. -/
def c4Eqs : EquationSet :=
  { eqs :=
      [("v",
        { unit := "volt", type := EqType.differentialEquation
          var_type := "float", expr := some "-v/tau", flags := [] }),
       ("tau",
        { unit := "second", type := EqType.parameter
          var_type := "float", expr := none, flags := [] })]
    identifiers := ∅ }

/-- Event-free group whose resolved identifier set prunes to empty. -/
def c5Group : NeuronGroup :=
  { name := "ng5"
    num := 10
    method_choice := some "euler"
    user_equations := { eqs := [], identifiers := ∅ }
    events := []
    thresholder := []
    event_codes := []
    resetter := []
    refractory := none
    resolveAll := fun s _ => s
    contained_objects := [] }

/-- Record `collect_NeuronGroup` produces for `c5Group` under the empty
pruner. -/
def c5Dict : NeuronDict :=
  { name := "ng5"
    num := 10
    user_method := some "euler"
    equations := []
    events := none
    identifiers := none
    run_regularly := none
    whenSlot := none
    order := none }

/-- Poisson group with a string rate expression. -/
def c5Poisson : PoissonGroup :=
  { name := "pg5"
    num := 5
    rates := RateSpec.code "r0 * x"
    resolveAll := fun s _ => s
    contained_objects := [] }

/-- Static synaptic equations: a parameter "w" and a subexpression "u". -/
def c7Static : EquationSet :=
  { eqs :=
      [("w",
        { unit := "siemens", type := EqType.parameter
          var_type := "float", expr := none, flags := [] }),
       ("u",
        { unit := "1", type := EqType.subexpression
          var_type := "float", expr := some "w * 2", flags := [] })]
    identifiers := ∅ }

/-- Event-driven synaptic equations redefining "w". -/
def c7EventDriven : EquationSet :=
  { eqs :=
      [("w",
        { unit := "siemens", type := EqType.differentialEquation
          var_type := "float", expr := some "-w/tau", flags := [] })]
    identifiers := ∅ }

/-- Connection whose event-driven equations collide with the static ones
on "w". -/
def c7Syn : Synapses :=
  { name := "syn"
    sourceName := "ng1"
    targetName := "ng2"
    equations := c7Static
    event_driven := some c7EventDriven
    contained_objects := [] }

/-- A free-standing periodic updater of exact class `CodeRunner`. -/
def c8RunReg : ContainedObj :=
  { kind := ObjKind.codeRunner
    name := "ng8_run_regularly"
    abstract_code := "x += 1"
    dt := 10
    whenSlot := "start"
    order := 0
    targetName := "" }

/-- The built-in state-update mechanism of the group. -/
def c8StateUpd : ContainedObj :=
  { kind := ObjKind.stateUpdater
    name := "ng8_stateupdater"
    abstract_code := ""
    dt := 1
    whenSlot := "groups"
    order := 7
    targetName := "" }

/-- Group carrying one generic periodic updater and one state updater. -/
def c8Group : NeuronGroup :=
  { name := "ng8"
    num := 3
    method_choice := none
    user_equations := { eqs := [], identifiers := ∅ }
    events := []
    thresholder := []
    event_codes := []
    resetter := []
    refractory := none
    resolveAll := fun s _ => s
    contained_objects := [c8RunReg, c8StateUpd] }

/-- Record `collect_NeuronGroup` produces for `c8Group`. -/
def c8Dict : NeuronDict :=
  { name := "ng8"
    num := 3
    user_method := none
    equations := []
    events := none
    identifiers := none
    run_regularly := some
      [{ name := "ng8_run_regularly", code := "x += 1", dt := 10
         whenSlot := "start", order := 0 }]
    whenSlot := some "groups"
    order := some 7 }

/-- Entry `collect_Equations` produces for the differential equation "v"
of `c4Eqs`. -/
def c4VEntry : EqEntry :=
  { unit := "volt"
    type := EqType.differentialEquation
    var_type := "float"
    expr := some "-v/tau"
    flags := none }

/-! ### Dictionary lemmas -/

theorem alistKeys_cons {V : Type} (q : String × V) (rest : PyDict V) :
    alistKeys (q :: rest) = q.1 :: alistKeys rest := rfl

theorem alistKeys_alistInsert {V : Type} (d : PyDict V) (key : String) (v : V) :
    alistKeys (alistInsert d key v) =
      if key ∈ alistKeys d then alistKeys d else alistKeys d ++ [key] := by
  unfold alistInsert
  by_cases h : key ∈ alistKeys d
  · simp only [h, if_true]
    unfold alistKeys
    rw [List.map_map]
    congr 1
    funext p
    by_cases hp : p.1 = key
    · simp [hp, Function.comp]
    · simp [hp, Function.comp]
  · rw [if_neg h, if_neg h]
    simp [alistKeys]

theorem mem_alistKeys_alistInsert {V : Type} (d : PyDict V) (key a : String)
    (v : V) :
    a ∈ alistKeys (alistInsert d key v) ↔ a ∈ alistKeys d ∨ a = key := by
  rw [alistKeys_alistInsert]
  by_cases h : key ∈ alistKeys d
  · simp only [h, if_true]
    constructor
    · exact Or.inl
    · rintro (ha | rfl)
      · exact ha
      · exact h
  · simp [h, List.mem_append]

theorem alistNodupKeys_alistInsert {V : Type} {d : PyDict V} (key : String)
    (v : V) (h : alistNodupKeys d) : alistNodupKeys (alistInsert d key v) := by
  unfold alistNodupKeys at *
  rw [alistKeys_alistInsert]
  by_cases hk : key ∈ alistKeys d
  · simp [hk, h]
  · simp [hk, List.nodup_append, h]

theorem alistLookup_isSome {V : Type} (d : PyDict V) (k : String) :
    (alistLookup d k).isSome = true ↔ k ∈ alistKeys d := by
  induction d with
  | nil => simp [alistLookup, alistKeys]
  | cons q rest ih =>
    obtain ⟨k0, v0⟩ := q
    by_cases hq : k0 = k
    · subst hq
      simp [alistLookup, alistKeys]
    · simp only [alistLookup, if_neg hq, alistKeys, List.map_cons,
        List.mem_cons, ih]
      constructor
      · exact Or.inr
      · rintro (rfl | hm)
        · exact absurd rfl hq
        · exact hm

theorem alistLookup_mem {V : Type} {d : PyDict V} {k : String} {v : V}
    (h : alistLookup d k = some v) : (k, v) ∈ d := by
  induction d with
  | nil => simp [alistLookup] at h
  | cons q rest ih =>
    obtain ⟨k0, v0⟩ := q
    by_cases hq : k0 = k
    · subst hq
      simp [alistLookup] at h
      subst h
      exact List.mem_cons_self _ _
    · simp only [alistLookup, if_neg hq] at h
      exact List.mem_cons_of_mem _ (ih h)


theorem alistLookup_mapValue {V : Type} (d : PyDict V) (key k : String)
    (f : V → V) :
    alistLookup (d.map (fun p => if p.1 = key then (p.1, f p.2) else p)) k =
      if k = key then (alistLookup d k).map f else alistLookup d k := by
  induction d with
  | nil => simp [alistLookup]
  | cons q rest ih =>
    obtain ⟨k0, v0⟩ := q
    rw [List.map_cons]
    by_cases hq : k0 = key
    · subst hq
      have hhead :
          (if (k0, v0).1 = k0 then ((k0, v0).1, f (k0, v0).2) else (k0, v0))
            = (k0, f v0) := by simp
      rw [hhead]
      by_cases hk : k0 = k
      · subst hk
        simp [alistLookup]
      · have hk2 : ¬k = k0 := fun h => hk h.symm
        simp [alistLookup, hk, hk2, ih]
    · have hhead :
          (if (k0, v0).1 = key then ((k0, v0).1, f (k0, v0).2) else (k0, v0))
            = (k0, v0) := by simp [hq]
      rw [hhead]
      by_cases hk : k0 = k
      · subst hk
        simp [alistLookup, hq]
      · simp [alistLookup, hq, hk, ih]

theorem alistInsert_map_eq {V : Type} (d : PyDict V) (key : String) (v : V) :
    d.map (fun p => if p.1 = key then (key, v) else p) =
      d.map (fun p => if p.1 = key then (p.1, (fun _ : V => v) p.2) else p) := by
  induction d with
  | nil => rfl
  | cons q rest ih =>
    obtain ⟨k0, v0⟩ := q
    by_cases hq : k0 = key
    · subst hq
      simp [ih]
    · simp [hq, ih]

theorem alistLookup_append {V : Type} (d d' : PyDict V) (k : String) :
    alistLookup (d ++ d') k =
      match alistLookup d k with
      | some v => some v
      | none => alistLookup d' k := by
  induction d with
  | nil => rfl
  | cons q rest ih =>
    obtain ⟨k0, v0⟩ := q
    by_cases hq : k0 = k
    · simp [alistLookup, hq]
    · simp [alistLookup, hq, ih]

theorem alistLookup_notmem {V : Type} (d : PyDict V) (k : String)
    (h : k ∉ alistKeys d) : alistLookup d k = none := by
  cases hl : alistLookup d k with
  | none => rfl
  | some v =>
    exact absurd ((alistLookup_isSome d k).mp (by rw [hl]; rfl)) h

theorem alistLookup_alistInsert_self {V : Type} (d : PyDict V) (key : String)
    (v : V) : alistLookup (alistInsert d key v) key = some v := by
  unfold alistInsert
  by_cases h : key ∈ alistKeys d
  · rw [if_pos h, alistInsert_map_eq,
      alistLookup_mapValue d key key (fun _ : V => v), if_pos rfl]
    obtain ⟨w, hw⟩ := Option.isSome_iff_exists.mp
      ((alistLookup_isSome d key).mpr h)
    rw [hw]
    rfl
  · rw [if_neg h, alistLookup_append, alistLookup_notmem d key h]
    simp [alistLookup]

theorem alistLookup_alistInsert_ne {V : Type} (d : PyDict V) (key k : String)
    (v : V) (h : ¬k = key) :
    alistLookup (alistInsert d key v) k = alistLookup d k := by
  unfold alistInsert
  by_cases hm : key ∈ alistKeys d
  · rw [if_pos hm, alistInsert_map_eq,
      alistLookup_mapValue d key k (fun _ : V => v), if_neg h]
  · rw [if_neg hm, alistLookup_append]
    have hne : ¬key = k := fun he => h he.symm
    have htail : alistLookup [(key, v)] k = none := by
      simp [alistLookup, hne]
    rw [htail]
    cases alistLookup d k <;> rfl

theorem mem_alistInsert {V : Type} {d : PyDict V} {key k : String} {v e : V}
    (h : (k, e) ∈ alistInsert d key v) : (k, e) ∈ d ∨ (k = key ∧ e = v) := by
  unfold alistInsert at h
  by_cases hk : key ∈ alistKeys d
  · rw [if_pos hk] at h
    rcases List.mem_map.mp h with ⟨q, hq, heq⟩
    by_cases hq1 : q.1 = key
    · rw [if_pos hq1] at heq
      right
      obtain ⟨h1, h2⟩ := Prod.mk.injEq .. ▸ heq
      exact ⟨h1.symm, h2.symm⟩
    · rw [if_neg hq1] at heq
      left
      exact heq ▸ hq
  · rw [if_neg hk] at h
    rcases List.mem_append.mp h with h1 | h1
    · exact Or.inl h1
    · right
      simp only [List.mem_singleton, Prod.mk.injEq] at h1
      exact h1

theorem mem_alistKeys_foldl_alistInsert {A B : Type} (mk : A → B)
    (l : List (String × A)) (d : PyDict B) (a : String) :
    a ∈ alistKeys (l.foldl (fun acc p => alistInsert acc p.1 (mk p.2)) d) ↔
      a ∈ alistKeys d ∨ a ∈ l.map Prod.fst := by
  induction l generalizing d with
  | nil => simp
  | cons q rest ih =>
    simp only [List.foldl_cons, List.map_cons, List.mem_cons]
    rw [ih, mem_alistKeys_alistInsert]
    tauto

theorem alistNodupKeys_foldl_alistInsert {A B : Type} (mk : A → B)
    (l : List (String × A)) (d : PyDict B) (h : alistNodupKeys d) :
    alistNodupKeys (l.foldl (fun acc p => alistInsert acc p.1 (mk p.2)) d) := by
  induction l generalizing d with
  | nil => exact h
  | cons q rest ih => exact ih _ (alistNodupKeys_alistInsert _ _ h)

theorem mem_foldl_alistInsert {A B : Type} (mk : A → B)
    (l : List (String × A)) (d : PyDict B) (k : String) (e : B)
    (h : (k, e) ∈ l.foldl (fun acc p => alistInsert acc p.1 (mk p.2)) d) :
    (k, e) ∈ d ∨ ∃ p ∈ l, k = p.1 ∧ e = mk p.2 := by
  induction l generalizing d with
  | nil => exact Or.inl h
  | cons q rest ih =>
    rcases ih _ h with h1 | ⟨p, hp, hk, he⟩
    · rcases mem_alistInsert h1 with h2 | ⟨hk, he⟩
      · exact Or.inl h2
      · exact Or.inr ⟨q, List.mem_cons_self _ _, hk, he⟩
    · exact Or.inr ⟨p, List.mem_cons_of_mem _ hp, hk, he⟩

theorem mem_alistKeys_alistUpdate {V : Type} (d other : PyDict V) (a : String) :
    a ∈ alistKeys (alistUpdate d other) ↔
      a ∈ alistKeys d ∨ a ∈ alistKeys other := by
  exact mem_alistKeys_foldl_alistInsert id other d a

theorem alistLookup_alistUpdate_notmem {V : Type} (d other : PyDict V)
    (k : String) (h : k ∉ alistKeys other) :
    alistLookup (alistUpdate d other) k = alistLookup d k := by
  induction other generalizing d with
  | nil => rfl
  | cons q rest ih =>
    obtain ⟨k0, v0⟩ := q
    have h1 : k ∉ alistKeys rest := by
      intro hm
      exact h (by rw [alistKeys_cons]; exact List.mem_cons_of_mem _ hm)
    have h2 : ¬k = k0 := by
      intro hm
      exact h (by rw [alistKeys_cons, hm]; exact List.mem_cons_self _ _)
    show alistLookup (alistUpdate (alistInsert d k0 v0) rest) k = _
    rw [ih _ h1, alistLookup_alistInsert_ne _ _ _ _ h2]

theorem alistLookup_alistUpdate_mem {V : Type} (d other : PyDict V)
    (k : String) (hnd : alistNodupKeys other) (h : k ∈ alistKeys other) :
    alistLookup (alistUpdate d other) k = alistLookup other k := by
  induction other generalizing d with
  | nil => simp [alistKeys] at h
  | cons q rest ih =>
    obtain ⟨k0, v0⟩ := q
    have hnd0 : k0 ∉ alistKeys rest ∧ (alistKeys rest).Nodup := by
      unfold alistNodupKeys at hnd
      simpa [alistKeys] using hnd
    show alistLookup (alistUpdate (alistInsert d k0 v0) rest) k = _
    by_cases hk : k ∈ alistKeys rest
    · rw [ih _ hnd0.2 hk]
      have hne : ¬k0 = k := fun he => hnd0.1 (he ▸ hk)
      simp [alistLookup, hne]
    · have hkk : k = k0 := by
        simp only [alistKeys, List.map_cons, List.mem_cons] at h
        rcases h with h | h
        · exact h
        · exact absurd h hk
      subst hkk
      rw [alistLookup_alistUpdate_notmem _ _ _ hk, alistLookup_alistInsert_self]
      simp [alistLookup]

/-! ### Event-loop lemmas -/

theorem refrNone_alistInsert {d : PyDict EventEntry} {key : String}
    {v : EventEntry} (hd : ∀ p ∈ d, p.2.refractory = none)
    (hv : v.refractory = none) :
    ∀ p ∈ alistInsert d key v, p.2.refractory = none := by
  intro p hp
  rcases @mem_alistInsert _ d key p.1 v p.2 (by simpa using hp) with
    h | ⟨hk, he⟩
  · exact hd _ h
  · rw [he]
    exact hv

theorem collectEventsLoop_refrNone (gi : GetIdents) (g : NeuronGroup)
    (l : List (String × Sched)) (d : PyDict EventEntry) (ids : Finset String)
    (d' : PyDict EventEntry) (ids' : Finset String)
    (hd : ∀ p ∈ d, p.2.refractory = none)
    (h : collectEventsLoop gi g l d ids = some (d', ids')) :
    ∀ p ∈ d', p.2.refractory = none := by
  induction l generalizing d ids with
  | nil =>
    simp only [collectEventsLoop, Option.some.injEq, Prod.mk.injEq] at h
    rw [← h.1]
    exact hd
  | cons q rest ih =>
    obtain ⟨ev, sch⟩ := q
    simp only [collectEventsLoop] at h
    cases hev : alistLookup g.events ev with
    | none => rw [hev] at h; exact absurd h (by simp)
    | some tcode =>
      rw [hev] at h
      cases hrc : alistLookup g.event_codes ev with
      | some rcode =>
        rw [hrc] at h
        cases hrs : alistLookup g.resetter ev with
        | none => rw [hrs] at h; exact absurd h (by simp)
        | some rsch =>
          rw [hrs] at h
          exact ih _ _ (refrNone_alistInsert hd rfl) h
      | none =>
        rw [hrc] at h
        exact ih _ _ (refrNone_alistInsert hd rfl) h

theorem collectEventsLoop_keys (gi : GetIdents) (g : NeuronGroup)
    (l : List (String × Sched)) (d : PyDict EventEntry) (ids : Finset String)
    (d' : PyDict EventEntry) (ids' : Finset String)
    (h : collectEventsLoop gi g l d ids = some (d', ids')) (a : String)
    (ha : a ∈ alistKeys d ∨ a ∈ l.map Prod.fst) : a ∈ alistKeys d' := by
  induction l generalizing d ids with
  | nil =>
    simp only [collectEventsLoop, Option.some.injEq, Prod.mk.injEq] at h
    rw [← h.1]
    rcases ha with ha | ha
    · exact ha
    · simp at ha
  | cons q rest ih =>
    obtain ⟨ev, sch⟩ := q
    have ha' : ∀ e : EventEntry,
        a ∈ alistKeys (alistInsert d ev e) ∨ a ∈ rest.map Prod.fst := by
      intro e
      rcases ha with ha | ha
      · exact Or.inl ((mem_alistKeys_alistInsert d ev a e).mpr (Or.inl ha))
      · rw [List.map_cons] at ha
        rcases List.mem_cons.mp ha with h1 | h1
        · exact Or.inl ((mem_alistKeys_alistInsert d ev a e).mpr (Or.inr h1))
        · exact Or.inr h1
    simp only [collectEventsLoop] at h
    cases hev : alistLookup g.events ev with
    | none => rw [hev] at h; exact absurd h (by simp)
    | some tcode =>
      rw [hev] at h
      cases hrc : alistLookup g.event_codes ev with
      | some rcode =>
        rw [hrc] at h
        cases hrs : alistLookup g.resetter ev with
        | none => rw [hrs] at h; exact absurd h (by simp)
        | some rsch =>
          rw [hrs] at h
          exact ih _ _ h (ha' _)
      | none =>
        rw [hrc] at h
        exact ih _ _ h (ha' _)

theorem collectEventsLoop_events_mem (gi : GetIdents) (g : NeuronGroup)
    (l : List (String × Sched)) (d : PyDict EventEntry) (ids : Finset String)
    (d' : PyDict EventEntry) (ids' : Finset String)
    (h : collectEventsLoop gi g l d ids = some (d', ids')) :
    ∀ q ∈ l, q.1 ∈ alistKeys g.events := by
  induction l generalizing d ids with
  | nil => intro q hq; simp at hq
  | cons q0 rest ih =>
    obtain ⟨ev, sch⟩ := q0
    simp only [collectEventsLoop] at h
    cases hev : alistLookup g.events ev with
    | none => rw [hev] at h; exact absurd h (by simp)
    | some tcode =>
      rw [hev] at h
      have hev' : ev ∈ alistKeys g.events :=
        (alistLookup_isSome g.events ev).mp (by rw [hev]; rfl)
      intro q hq
      rcases List.mem_cons.mp hq with h1 | h1
      · rw [h1]
        exact hev'
      · cases hrc : alistLookup g.event_codes ev with
        | some rcode =>
          rw [hrc] at h
          cases hrs : alistLookup g.resetter ev with
          | none => rw [hrs] at h; exact absurd h (by simp)
          | some rsch =>
            rw [hrs] at h
            exact ih _ _ h q h1
        | none =>
          rw [hrc] at h
          exact ih _ _ h q h1

theorem collectEventsLoop_isSome (gi : GetIdents) (g : NeuronGroup)
    (l : List (String × Sched)) (d : PyDict EventEntry) (ids : Finset String)
    (hev : ∀ q ∈ l, q.1 ∈ alistKeys g.events)
    (hrs : ∀ ev ∈ alistKeys g.event_codes, ev ∈ alistKeys g.resetter) :
    (collectEventsLoop gi g l d ids).isSome = true := by
  induction l generalizing d ids with
  | nil => simp [collectEventsLoop]
  | cons q rest ih =>
    obtain ⟨ev, sch⟩ := q
    have h1 : ev ∈ alistKeys g.events := hev _ (List.mem_cons_self _ _)
    obtain ⟨tcode, htc⟩ := Option.isSome_iff_exists.mp
      ((alistLookup_isSome g.events ev).mpr h1)
    simp only [collectEventsLoop, htc]
    cases hrc : alistLookup g.event_codes ev with
    | none =>
      exact ih _ _ (fun q hq => hev q (List.mem_cons_of_mem _ hq))
    | some rcode =>
      have h2 : ev ∈ alistKeys g.event_codes :=
        (alistLookup_isSome g.event_codes ev).mp (by rw [hrc]; rfl)
      obtain ⟨rsch, hrsch⟩ := Option.isSome_iff_exists.mp
        ((alistLookup_isSome g.resetter ev).mpr (hrs _ h2))
      rw [hrsch]
      exact ih _ _ (fun q hq => hev q (List.mem_cons_of_mem _ hq))

theorem alistLookup_setRefractory (d : PyDict EventEntry) (ev k : String)
    (r : Option Quantity) :
    alistLookup (setRefractory d ev r) k =
      if k = ev then
        (alistLookup d k).map (fun e => { e with refractory := r })
      else alistLookup d k := by
  unfold setRefractory
  exact alistLookup_mapValue d ev k (fun e => { e with refractory := r })

theorem mem_setRefractory {d : PyDict EventEntry} {ev : String}
    {r : Option Quantity} {p : String × EventEntry}
    (hp : p ∈ setRefractory d ev r) :
    (p.1 = ev ∧ ∃ q ∈ d, q.1 = ev ∧ p.2 = { q.2 with refractory := r }) ∨
      (p ∈ d ∧ p.1 ≠ ev) := by
  unfold setRefractory at hp
  rcases List.mem_map.mp hp with ⟨q, hq, heq⟩
  by_cases h1 : q.1 = ev
  · left
    rw [if_pos h1] at heq
    rw [← heq]
    exact ⟨h1, q, hq, h1, rfl⟩
  · right
    rw [if_neg h1] at heq
    rw [← heq]
    exact ⟨hq, h1⟩

theorem collect_Events_cases (gi : GetIdents) (g : NeuronGroup)
    (d : PyDict EventEntry) (ids : Finset String)
    (h : collect_Events gi g = some (d, ids)) :
    ∃ d0, collectEventsLoop gi g g.thresholder [] ∅ = some (d0, ids) ∧
      ∃ ev, (alistKeys g.thresholder).getLast? = some ev ∧
        ((ev = "spike" ∧ g.refractory.isSome = true ∧
            d = setRefractory d0 ev g.refractory) ∨
         (¬(ev = "spike" ∧ g.refractory.isSome = true) ∧ d = d0)) := by
  cases hloop : collectEventsLoop gi g g.thresholder [] ∅ with
  | none =>
    have hn : collect_Events gi g = none := by
      unfold collect_Events
      rw [hloop]
    rw [hn] at h
    exact absurd h (by simp)
  | some pr =>
    obtain ⟨d0, ids0⟩ := pr
    cases hlast : (alistKeys g.thresholder).getLast? with
    | none =>
      have hn : collect_Events gi g = none := by
        unfold collect_Events
        rw [hloop, hlast]
      rw [hn] at h
      exact absurd h (by simp)
    | some ev =>
      have hval : collect_Events gi g =
          if ev = "spike" ∧ g.refractory.isSome = true then
            some (setRefractory d0 ev g.refractory, ids0)
          else some (d0, ids0) := by
        unfold collect_Events
        rw [hloop, hlast]
      rw [hval] at h
      by_cases hcond : ev = "spike" ∧ g.refractory.isSome = true
      · rw [if_pos hcond] at h
        simp only [Option.some.injEq, Prod.mk.injEq] at h
        exact ⟨d0, by rw [h.2], ev, rfl,
          Or.inl ⟨hcond.1, hcond.2, h.1.symm⟩⟩
      · rw [if_neg hcond] at h
        simp only [Option.some.injEq, Prod.mk.injEq] at h
        exact ⟨d0, by rw [h.2], ev, rfl, Or.inr ⟨hcond, h.1.symm⟩⟩

/-! ### Claim theorems: equations -/

/-- Claim C3: for any equation set, the key set of the mapping returned by
collect_Equations equals exactly the union of the differential-equation,
subexpression and parameter names of the set, with every name present
exactly once and no other key. -/
theorem claim_C3_equation_key_set (E : EquationSet) :
    (alistKeys (collect_Equations E)).toFinset =
      E.diff_eq_names ∪ E.subexpr_names ∪ E.parameter_names ∧
    (alistKeys (collect_Equations E)).Nodup := by
  constructor
  · ext a
    rw [List.mem_toFinset]
    unfold collect_Equations
    rw [mem_alistKeys_foldl_alistInsert]
    simp only [EquationSet.diff_eq_names, EquationSet.subexpr_names,
      EquationSet.parameter_names, Finset.mem_union, List.mem_toFinset,
      List.mem_map, List.mem_filter, decide_eq_true_eq]
    constructor
    · rintro (h | ⟨p, hp, rfl⟩)
      · simp [alistKeys] at h
      · cases htype : p.2.type with
        | differentialEquation => exact Or.inl (Or.inl ⟨p, ⟨hp, htype⟩, rfl⟩)
        | subexpression => exact Or.inl (Or.inr ⟨p, ⟨hp, htype⟩, rfl⟩)
        | parameter => exact Or.inr ⟨p, ⟨hp, htype⟩, rfl⟩
    · rintro ((⟨p, ⟨hp, _⟩, rfl⟩ | ⟨p, ⟨hp, _⟩, rfl⟩) | ⟨p, ⟨hp, _⟩, rfl⟩) <;>
        exact Or.inr ⟨p, hp, rfl⟩
  · exact alistNodupKeys_foldl_alistInsert mkEqEntry E.eqs [] List.nodup_nil

/-- Claim C4: an entry of the mapping produced by collect_Equations carries
an expression field exactly when its kind is not parameter; the hypothesis
is the brian2 invariant that every non-parameter equation stores an
expression. -/
theorem claim_C4_expr_iff_not_parameter (E : EquationSet)
    (hwf : ∀ p ∈ E.eqs, p.2.type ≠ EqType.parameter → p.2.expr.isSome = true)
    (name : String) (e : EqEntry)
    (hl : alistLookup (collect_Equations E) name = some e) :
    e.expr.isSome = true ↔ e.type ≠ EqType.parameter := by
  have hmem := alistLookup_mem hl
  rcases mem_foldl_alistInsert mkEqEntry E.eqs [] name e hmem with
    h | ⟨p, hp, _, he⟩
  · simp at h
  · subst he
    by_cases ht : p.2.type = EqType.parameter
    · simp [mkEqEntry, ht]
    · simp [mkEqEntry, ht, hwf p hp ht]

/-- Claim C4 witness: hypotheses discharged on the concrete set `c4Eqs` at
the differential-equation name "v". -/
theorem claim_C4_witness :
    alistLookup (collect_Equations c4Eqs) "v" = some c4VEntry ∧
    (c4VEntry.expr.isSome = true ↔ c4VEntry.type ≠ EqType.parameter) :=
  ⟨by decide,
   claim_C4_expr_iff_not_parameter c4Eqs (by decide) "v" c4VEntry (by decide)⟩

/-! ### Claim theorems: monitors and purity -/

/-- Claim C6: collect_SpikeMonitor returns exactly the record that
collect_EventMonitor returns for the same monitor, unchanged. -/
theorem claim_C6_spike_monitor_delegates (m : EventMonitor) :
    collect_SpikeMonitor m = collect_EventMonitor m := rfl

/-- Claim C9: the collectors are pure functions of the group and the
run-time namespace, so extracting twice from unchanged inputs yields
structurally equal records. -/
theorem claim_C9_idempotent (gi : GetIdents)
    (prune : Finset String → Finset String) (g : NeuronGroup)
    (p : PoissonGroup) (s : Synapses) (ns : RunNamespace) :
    collect_NeuronGroup gi prune g ns = collect_NeuronGroup gi prune g ns ∧
    collect_PoissonGroup gi prune p ns = collect_PoissonGroup gi prune p ns ∧
    collect_Synapses s = collect_Synapses s :=
  ⟨rfl, rfl, rfl⟩

/-! ### Claim theorems: events -/

/-- Claim C1 counterexample: on a group that defines "spike" before a
custom event and carries a refractory specification of 2 units, the spike
sub-record of the collected event mapping carries no refractory value, so
the collector does not attach refractory to the spike event regardless of
iteration order. -/
theorem claim_C1_counterexample :
    c1Group.refractory = some 2 ∧
    "spike" ∈ alistKeys c1Group.events ∧
    (collect_Events giEmpty c1Group).map
        (fun r => (alistLookup r.1 "spike").map (fun e => e.refractory)) =
      some (some none) := by
  refine ⟨rfl, by decide, by decide⟩

/-- Claim C1 (amended): collect_Events attaches the refractory value to a
sub-record only at the spike key and only when "spike" is the last event in
the thresholder iteration order; when spike is last and refractory is set,
the spike sub-record does carry it. -/
theorem claim_C1_refractory_last_event (gi : GetIdents) (g : NeuronGroup)
    (d : PyDict EventEntry) (ids : Finset String)
    (h : collect_Events gi g = some (d, ids)) :
    (∀ p ∈ d, p.2.refractory ≠ none →
       p.1 = "spike" ∧ (alistKeys g.thresholder).getLast? = some "spike") ∧
    ((alistKeys g.thresholder).getLast? = some "spike" →
     ∀ r, g.refractory = some r →
     ∃ e, alistLookup d "spike" = some e ∧ e.refractory = some r) := by
  obtain ⟨d0, hloop, ev, hlast, hcase⟩ := collect_Events_cases gi g d ids h
  have hrn : ∀ p ∈ d0, p.2.refractory = none :=
    collectEventsLoop_refrNone gi g _ _ _ _ _ (by intro p hp; simp at hp)
      hloop
  constructor
  · intro p hp hne
    rcases hcase with ⟨hev, _, hd⟩ | ⟨_, hd⟩
    · subst hd
      rcases mem_setRefractory hp with ⟨h1, _⟩ | ⟨h2, _⟩
      · subst hev
        exact ⟨h1, hlast⟩
      · exact absurd (hrn _ h2) hne
    · subst hd
      exact absurd (hrn _ hp) hne
  · intro hsp r hr
    have hevs : ev = "spike" := by
      rw [hlast] at hsp
      exact Option.some_injective _ hsp
    rcases hcase with ⟨_, _, hd⟩ | ⟨hc, _⟩
    · subst hd
      subst hevs
      have hmem0 : "spike" ∈ alistKeys g.thresholder :=
        List.mem_of_getLast?_eq_some hlast
      have hmem : "spike" ∈ alistKeys d0 :=
        collectEventsLoop_keys gi g _ _ _ _ _ hloop "spike" (Or.inr hmem0)
      obtain ⟨e0, he0⟩ := Option.isSome_iff_exists.mp
        ((alistLookup_isSome d0 "spike").mpr hmem)
      refine ⟨{ e0 with refractory := g.refractory }, ?_, by rw [hr]⟩
      rw [alistLookup_setRefractory, if_pos rfl, he0]
      rfl
    · exact absurd ⟨hevs, by rw [hr]; rfl⟩ hc

/-- Claim C1 amended witness: on the single-event group `c2Group` (where
"spike" is last), the sub-record carries the refractory value 2. -/
theorem claim_C1_amended_witness :
    ∃ e, alistLookup c2Dict "spike" = some e ∧ e.refractory = some 2 :=
  (claim_C1_refractory_last_event giEmpty c2Group c2Dict ∅ (by decide)).2
    (by decide) 2 rfl

/-- Claim C2: a refractory value appears in the collected event mapping
only if the distinguished "spike" event is among the entity's defined
events. -/
theorem claim_C2_refractory_needs_spike (gi : GetIdents) (g : NeuronGroup)
    (d : PyDict EventEntry) (ids : Finset String)
    (h : collect_Events gi g = some (d, ids))
    (p : String × EventEntry) (hp : p ∈ d) (hr : p.2.refractory ≠ none) :
    "spike" ∈ alistKeys g.events := by
  obtain ⟨d0, hloop, ev, hlast, hcase⟩ := collect_Events_cases gi g d ids h
  have hrn : ∀ q ∈ d0, q.2.refractory = none :=
    collectEventsLoop_refrNone gi g _ _ _ _ _ (by intro q hq; simp at hq)
      hloop
  rcases hcase with ⟨hev, _, hd⟩ | ⟨_, hd⟩
  · have hmem : ev ∈ alistKeys g.thresholder :=
      List.mem_of_getLast?_eq_some hlast
    obtain ⟨q, hq, hq1⟩ := List.mem_map.mp hmem
    have hqe := collectEventsLoop_events_mem gi g _ _ _ _ _ hloop q hq
    rw [← hev, ← hq1]
    exact hqe
  · subst hd
    exact absurd (hrn _ hp) hr

/-- Claim C2 witness: hypotheses discharged on `c2Group`, whose collected
spike sub-record carries refractory 2; the conclusion places "spike" among
the defined events. -/
theorem claim_C2_witness : "spike" ∈ alistKeys c2Group.events :=
  claim_C2_refractory_needs_spike giEmpty c2Group c2Dict ∅ (by decide)
    ("spike",
      { threshold :=
          { code := "v > 1", whenSlot := "thresholds", order := 0, dt := 1 }
        reset := none
        refractory := some 2 })
    (by decide) (by decide)

/-- Claim C10: with an empty thresholder dict the post-loop refractory
check reads the never-bound loop variable and the call fails (none) instead
of returning an empty mapping; under the brian2 invariant that the
thresholder and events dicts share their keys (and that every reset code
has a resetter), the guard `if group.events` in collect_NeuronGroup makes
that failure unreachable: a non-empty event set forces success. -/
theorem claim_C10_empty_thresholder_fails (gi : GetIdents) (g : NeuronGroup)
    (hkeys : alistKeys g.thresholder = alistKeys g.events)
    (hreset : ∀ ev ∈ alistKeys g.event_codes, ev ∈ alistKeys g.resetter) :
    (g.thresholder = [] → collect_Events gi g = none) ∧
    (g.events ≠ [] → (collect_Events gi g).isSome = true) := by
  constructor
  · intro hthr
    unfold collect_Events
    rw [hthr]
    rfl
  · intro hev
    have hthr_ne : g.thresholder ≠ [] := by
      intro h0
      apply hev
      have h1 : alistKeys g.events = [] := by
        rw [← hkeys, h0]
        rfl
      exact List.map_eq_nil_iff.mp h1
    have hsome := collectEventsLoop_isSome gi g g.thresholder [] ∅
      (fun q hq => by
        rw [← hkeys]
        exact List.mem_map_of_mem Prod.fst hq)
      hreset
    obtain ⟨pr, hloop⟩ := Option.isSome_iff_exists.mp hsome
    obtain ⟨d0, ids0⟩ := pr
    have hkne : alistKeys g.thresholder ≠ [] := by
      intro h0
      exact hthr_ne (List.map_eq_nil_iff.mp h0)
    obtain ⟨ev, hlast⟩ := Option.isSome_iff_exists.mp
      (List.getLast?_isSome.mpr hkne)
    have hval : collect_Events gi g =
        if ev = "spike" ∧ g.refractory.isSome = true then
          some (setRefractory d0 ev g.refractory, ids0)
        else some (d0, ids0) := by
      unfold collect_Events
      rw [hloop, hlast]
    rw [hval]
    by_cases hcond : ev = "spike" ∧ g.refractory.isSome = true
    · rw [if_pos hcond]
      rfl
    · rw [if_neg hcond]
      rfl

/-- Claim C10 witness: hypotheses discharged on `c10Group`, a group with
one spike event; its event set is non-empty and collect_Events succeeds. -/
theorem claim_C10_witness : (collect_Events giEmpty c10Group).isSome = true :=
  (claim_C10_empty_thresholder_fails giEmpty c10Group (by decide)
    (by decide)).2 (by decide)

/-! ### Claim theorems: identifier pruning -/

/-- Claim C5: the identifiers key is absent exactly when the resolved and
pruned identifier set is empty, and otherwise present and bound to exactly
that set, for both collect_NeuronGroup and collect_PoissonGroup. -/
theorem claim_C5_identifiers_absent_iff_empty :
    (∀ (gi : GetIdents) (prune : Finset String → Finset String)
       (g : NeuronGroup) (ns : RunNamespace) (d : NeuronDict)
       (evd : Option (PyDict EventEntry)) (evIds : Finset String),
       neuronEventsPart gi g = some (evd, evIds) →
       collect_NeuronGroup gi prune g ns = some d →
       (prune (g.resolveAll ((∅ ∪ g.user_equations.identifiers) ∪ evIds) ns)
           = ∅ → d.identifiers = none) ∧
       (prune (g.resolveAll ((∅ ∪ g.user_equations.identifiers) ∪ evIds) ns)
           ≠ ∅ → d.identifiers = some (prune (g.resolveAll
             ((∅ ∪ g.user_equations.identifiers) ∪ evIds) ns)))) ∧
    (∀ (gi : GetIdents) (prune : Finset String → Finset String)
       (p : PoissonGroup) (ns : RunNamespace),
       (prune (p.resolveAll (poissonRateIdents gi p) ns) = ∅ →
          (collect_PoissonGroup gi prune p ns).identifiers = none) ∧
       (prune (p.resolveAll (poissonRateIdents gi p) ns) ≠ ∅ →
          (collect_PoissonGroup gi prune p ns).identifiers =
            some (prune (p.resolveAll (poissonRateIdents gi p) ns)))) := by
  constructor
  · intro gi prune g ns d evd evIds hev h
    unfold collect_NeuronGroup at h
    rw [hev] at h
    simp only [Option.some.injEq] at h
    subst h
    constructor
    · intro hz
      rw [Finset.empty_union] at hz
      simp [hz]
    · intro hnz
      rw [Finset.empty_union] at hnz
      simp [hnz]
  · intro gi prune p ns
    constructor
    · intro hz
      simp [collect_PoissonGroup, hz]
    · intro hnz
      simp [collect_PoissonGroup, hnz]

/-- Claim C5 witness: hypotheses discharged on `c5Group` (no events, empty
pruner, so the pruned set is empty and the key is absent) and on
`c5Poisson`. -/
theorem claim_C5_witness :
    c5Dict.identifiers = none ∧
    (collect_PoissonGroup giEmpty pruneEmpty c5Poisson nsEmpty).identifiers
      = none := by
  refine ⟨?_, ?_⟩
  · exact ((claim_C5_identifiers_absent_iff_empty.1 giEmpty pruneEmpty
      c5Group nsEmpty c5Dict none ∅ (by decide) (by decide)).1 (by decide))
  · exact ((claim_C5_identifiers_absent_iff_empty.2 giEmpty pruneEmpty
      c5Poisson nsEmpty).1 (by decide))

/-! ### Claim theorems: synapses -/

theorem mem_alistKeys_collect_Equations (E : EquationSet) (a : String) :
    a ∈ alistKeys (collect_Equations E) ↔ a ∈ alistKeys E.eqs := by
  unfold collect_Equations
  rw [mem_alistKeys_foldl_alistInsert]
  simp [alistKeys]

theorem alistNodupKeys_collect_Equations (E : EquationSet) :
    alistNodupKeys (collect_Equations E) :=
  alistNodupKeys_foldl_alistInsert mkEqEntry E.eqs [] List.nodup_nil

theorem collect_Synapses_equations_none (synapses : Synapses)
    (hed : synapses.event_driven = none) :
    (collect_Synapses synapses).equations =
      collect_Equations synapses.equations := by
  unfold collect_Synapses
  rw [hed]

theorem collect_Synapses_equations_some (synapses : Synapses)
    (ed : EquationSet) (hed : synapses.event_driven = some ed) :
    (collect_Synapses synapses).equations =
      alistUpdate (collect_Equations synapses.equations)
        (collect_Equations ed) := by
  unfold collect_Synapses
  rw [hed]

/-- Claim C7: the merged equation mapping of collect_Synapses contains
every static equation name and, when an event-driven set is present, every
event-driven name; on a name collision the output entry is the
event-driven one. -/
theorem claim_C7_merged_equations (synapses : Synapses) :
    (∀ name ∈ alistKeys synapses.equations.eqs,
       name ∈ alistKeys (collect_Synapses synapses).equations) ∧
    (∀ ed, synapses.event_driven = some ed →
       (∀ name ∈ alistKeys ed.eqs,
          name ∈ alistKeys (collect_Synapses synapses).equations) ∧
       (∀ name ∈ alistKeys ed.eqs,
          alistLookup (collect_Synapses synapses).equations name =
            alistLookup (collect_Equations ed) name)) := by
  constructor
  · intro name hname
    cases hed : synapses.event_driven with
    | none =>
      rw [collect_Synapses_equations_none synapses hed]
      exact (mem_alistKeys_collect_Equations _ _).mpr hname
    | some ed =>
      rw [collect_Synapses_equations_some synapses ed hed]
      exact (mem_alistKeys_alistUpdate _ _ _).mpr
        (Or.inl ((mem_alistKeys_collect_Equations _ _).mpr hname))
  · intro ed hed
    constructor
    · intro name hname
      rw [collect_Synapses_equations_some synapses ed hed]
      exact (mem_alistKeys_alistUpdate _ _ _).mpr
        (Or.inr ((mem_alistKeys_collect_Equations _ _).mpr hname))
    · intro name hname
      rw [collect_Synapses_equations_some synapses ed hed]
      exact alistLookup_alistUpdate_mem _ _ _
        (alistNodupKeys_collect_Equations ed)
        ((mem_alistKeys_collect_Equations _ _).mpr hname)

/-- Claim C7 witness: on `c7Syn`, the colliding name "w" and the
static-only name "u" are both present, and the entry at "w" is the
event-driven one. -/
theorem claim_C7_witness :
    "u" ∈ alistKeys (collect_Synapses c7Syn).equations ∧
    "w" ∈ alistKeys (collect_Synapses c7Syn).equations ∧
    alistLookup (collect_Synapses c7Syn).equations "w" =
      alistLookup (collect_Equations c7EventDriven) "w" := by
  refine ⟨?_, ?_, ?_⟩
  · exact (claim_C7_merged_equations c7Syn).1 "u" (by decide)
  · exact ((claim_C7_merged_equations c7Syn).2 c7EventDriven rfl).1 "w"
      (by decide)
  · exact ((claim_C7_merged_equations c7Syn).2 c7EventDriven rfl).2 "w"
      (by decide)

/-! ### Claim theorems: contained-objects scan -/

theorem neuronContainedScan_spec (objs : List ContainedObj) :
    neuronContainedScan objs =
      (if (objs.filter (fun o => o.kind = ObjKind.codeRunner)) = [] then
         none
       else
         some ((objs.filter
           (fun o => o.kind = ObjKind.codeRunner)).map mkRunRegItem),
       ((objs.filter
           (fun o => o.kind = ObjKind.stateUpdater)).getLast?).map
         (fun o => (o.whenSlot, o.order))) := by
  induction objs using List.reverseRecOn with
  | nil => rfl
  | append_singleton l o ih =>
    have hstep : neuronContainedScan (l ++ [o]) =
        ((if o.kind = ObjKind.codeRunner then
            some (((neuronContainedScan l).1.getD []) ++ [mkRunRegItem o])
          else (neuronContainedScan l).1),
         (if o.kind = ObjKind.stateUpdater then some (o.whenSlot, o.order)
          else (neuronContainedScan l).2)) := by
      unfold neuronContainedScan
      rw [List.foldl_append]
      rfl
    rw [hstep, ih, List.filter_append, List.filter_append]
    by_cases hk : o.kind = ObjKind.codeRunner
    · have hs : ¬o.kind = ObjKind.stateUpdater := by
        rw [hk]
        decide
      by_cases hfl : l.filter (fun o => o.kind = ObjKind.codeRunner) = []
      · simp [hk, hs, hfl]
      · simp [hk, hs, hfl, List.map_append]
    · by_cases hs : o.kind = ObjKind.stateUpdater
      · simp [hk, hs, List.getLast?_concat]
      · simp [hk, hs]

/-- Claim C8: in the contained-objects scan of collect_NeuronGroup, exactly
the objects whose declared class is the generic CodeRunner contribute
run_regularly entries (the key stays absent when there are none), and the
group-level schedule slot and order come from the (last) StateUpdater
object. -/
theorem claim_C8_contained_scan (gi : GetIdents)
    (prune : Finset String → Finset String) (g : NeuronGroup)
    (ns : RunNamespace) (d : NeuronDict)
    (h : collect_NeuronGroup gi prune g ns = some d) :
    d.run_regularly =
      (if (g.contained_objects.filter
            (fun o => o.kind = ObjKind.codeRunner)) = [] then none
       else some ((g.contained_objects.filter
            (fun o => o.kind = ObjKind.codeRunner)).map mkRunRegItem)) ∧
    d.whenSlot = ((g.contained_objects.filter
        (fun o => o.kind = ObjKind.stateUpdater)).getLast?).map
          ContainedObj.whenSlot ∧
    d.order = ((g.contained_objects.filter
        (fun o => o.kind = ObjKind.stateUpdater)).getLast?).map
          ContainedObj.order := by
  unfold collect_NeuronGroup at h
  cases hev : neuronEventsPart gi g with
  | none =>
    rw [hev] at h
    exact absurd h (by simp)
  | some pr =>
    obtain ⟨evd, evIds⟩ := pr
    rw [hev] at h
    simp only [Option.some.injEq] at h
    subst h
    refine ⟨?_, ?_, ?_⟩
    · simp [neuronContainedScan_spec]
    · simp only [neuronContainedScan_spec, Option.map_map]
      rfl
    · simp only [neuronContainedScan_spec, Option.map_map]
      rfl

/-- Claim C8 witness: hypotheses discharged on `c8Group`, which contains
one generic CodeRunner and one StateUpdater. -/
theorem claim_C8_witness :
    c8Dict.run_regularly =
      (if (c8Group.contained_objects.filter
            (fun o => o.kind = ObjKind.codeRunner)) = [] then none
       else some ((c8Group.contained_objects.filter
            (fun o => o.kind = ObjKind.codeRunner)).map mkRunRegItem)) ∧
    c8Dict.whenSlot = ((c8Group.contained_objects.filter
        (fun o => o.kind = ObjKind.stateUpdater)).getLast?).map
          ContainedObj.whenSlot ∧
    c8Dict.order = ((c8Group.contained_objects.filter
        (fun o => o.kind = ObjKind.stateUpdater)).getLast?).map
          ContainedObj.order :=
  claim_C8_contained_scan giEmpty pruneId c8Group nsEmpty c8Dict (by decide)
